import Mathlib

/-!
Verification development for the shared-notes service.

The definitions below are a shallow embedding of the note visibility,
tag-filtering, search, pagination and sharing logic of the notes-service
backend (FastAPI + SQLAlchemy + PostgreSQL).  Database tables are modelled
as Lean lists of records, SQL filters as list filters, and the SQLAlchemy
query pipelines as Lean functions over an explicit database state.
User, note and tag identifiers (UUIDs in the source) are modelled as Nat;
timestamps as Nat.
-/

namespace SharedNotes

/-- User identifier (Keycloak UUID in the source). -/
abbrev UserId := Nat

/-- Note identifier (UUID primary key in the source). -/
abbrev NoteId := Nat

/-- Tag identifier (UUID primary key in the source). -/
abbrev TagId := Nat

/-- Timestamp (datetime in the source); totally ordered. -/
abbrev Time := Nat

/-- A row of the notes table (infrastructure/models/note_orm.py).
The many-to-many note-tag association (association table note_tags)
is carried as the list of associated tag ids, mirroring the ORM
relationship NoteORM.tags.  The search_vector column is maintained by
PostgreSQL and is not part of the row state modelled here. -/
structure NoteRec where
  id : NoteId
  title : String
  content : String
  owner_id : UserId
  tags : List TagId
  created_at : Time
  updated_at : Time
  is_deleted : Bool
deriving Repr, DecidableEq

/-- A row of the note_shares table (infrastructure/models/note_share_orm.py).
The auto-generated surrogate id and created_at columns are elided; record
identity is list position, so duplicate rows are representable, matching
the absence of a uniqueness constraint on (note_id, shared_with_user_id). -/
structure ShareRec where
  note_id : NoteId
  shared_by_user_id : UserId
  shared_with_user_id : UserId
deriving Repr, DecidableEq

/-- A row of the tags table (infrastructure/models/tag_orm.py). -/
structure TagRec where
  id : TagId
  name : String
deriving Repr, DecidableEq

/-- The relational store: notes, shares and the tag catalog. -/
structure DB where
  notes : List NoteRec
  shares : List ShareRec
  tags : List TagRec
deriving Repr, DecidableEq

/-- The note ids shared BY the given user: the subquery
SELECT note_id FROM note_shares WHERE shared_by_user_id = user
(sqlalchemy_search_repository._build_section_query and
sqlalchemy_note_repository.get_my_notes / get_notes_shared_by_me). -/
def sharedByUserNoteIds (db : DB) (u : UserId) : List NoteId :=
  (db.shares.filter (fun s => s.shared_by_user_id == u)).map (fun s => s.note_id)

/-- The note ids shared WITH the given user: the subquery
SELECT note_id FROM note_shares WHERE shared_with_user_id = user. -/
def sharedWithUserNoteIds (db : DB) (u : UserId) : List NoteId :=
  (db.shares.filter (fun s => s.shared_with_user_id == u)).map (fun s => s.note_id)

/-- Search sections (domain/entities/search.py SearchSection). -/
inductive SearchSection where
  | myNotes
  | sharedByMe
  | sharedWithMe
deriving Repr, DecidableEq

/-- Parse the section string exactly as router_search.py branches on it. -/
def sectionOfString : String → Option SearchSection
  | "my-notes" => some .myNotes
  | "shared-by-me" => some .sharedByMe
  | "shared-with-me" => some .sharedWithMe
  | _ => none

/-- The base candidate query for a section
(sqlalchemy_search_repository._build_section_query, identical filters in
router_search.py lines 119-157 and in sqlalchemy_note_repository
get_my_notes / get_notes_shared_by_me / get_notes_shared_with_me):
my-notes keeps notes owned by the user, not soft-deleted and not shared
by the user; shared-by-me keeps owned, not soft-deleted and shared by the
user; shared-with-me keeps not soft-deleted notes whose id occurs in a
share whose grantee is the user. -/
def buildSectionQuery (db : DB) (u : UserId) : SearchSection → List NoteRec
  | .myNotes =>
      db.notes.filter (fun n =>
        n.owner_id == u && !n.is_deleted && !((sharedByUserNoteIds db u).contains n.id))
  | .sharedByMe =>
      db.notes.filter (fun n =>
        n.owner_id == u && !n.is_deleted && ((sharedByUserNoteIds db u).contains n.id))
  | .sharedWithMe =>
      db.notes.filter (fun n =>
        !n.is_deleted && ((sharedWithUserNoteIds db u).contains n.id))

/-- The COUNT(DISTINCT note_tags.tag_id) aggregate of the tag filter,
restricted to one note and to the requested tag ids: the number of
distinct tags of the note that lie in the requested list. -/
def distinctMatchingTagCount (n : NoteRec) (tagIds : List TagId) : Nat :=
  ((n.tags.filter (fun t => tagIds.contains t)).dedup).length

/-- The tag filter with AND semantics
(sqlalchemy_search_repository._apply_tag_filter; the identical
join/group_by/having clause appears in router_search.py lines 164-172 and
in the list-path repository methods of sqlalchemy_note_repository):
a note survives iff the count of its distinct tags among the requested
ids equals the raw length of the requested list. -/
def applyTagFilter (notes : List NoteRec) (tagIds : List TagId) : List NoteRec :=
  notes.filter (fun n => distinctMatchingTagCount n tagIds == tagIds.length)

/-- ASCII whitespace test, for the Python str.strip model below. -/
def isSpaceChar (c : Char) : Bool :=
  c == ' ' || c == '\t' || c == '\n' || c == '\r'

/-- Python str.strip on ASCII whitespace: drop leading and trailing
whitespace characters. -/
def trimStr (s : String) : String :=
  String.mk (((s.data.dropWhile isSpaceChar).reverse.dropWhile isSpaceChar).reverse)

/-- Case-folded string, modelling the case-insensitivity of ILIKE. -/
def lowerStr (s : String) : String := String.mk (s.data.map Char.toLower)

/-- The ILIKE substring condition of _apply_text_search: the query occurs
case-insensitively inside the title or the content.  Wildcard characters
inside the query itself are not modelled. -/
def substringMatch (q : String) (n : NoteRec) : Bool :=
  decide (List.IsInfix (lowerStr q).data (lowerStr n.title).data) ||
  decide (List.IsInfix (lowerStr q).data (lowerStr n.content).data)

/-- The text-search condition of _apply_text_search (also router_search.py
lines 175-191): PostgreSQL full-text match OR case-insensitive substring
match.  The tsvector full-text match is computed inside PostgreSQL and is
passed in as the predicate ft. -/
def textSearchCond (ft : NoteRec → Bool) (q : String) (n : NoteRec) : Bool :=
  ft n || substringMatch q n

/-- Insert a note into a list kept in nonincreasing updated_at order. -/
def insertByUpdatedDesc (n : NoteRec) : List NoteRec → List NoteRec
  | [] => [n]
  | m :: rest =>
      if m.updated_at < n.updated_at then n :: m :: rest
      else m :: insertByUpdatedDesc n rest

/-- Materialization of ORDER BY updated_at DESC.  The SQL clause fixes only
the nonincreasing updated_at order; the relative order of equal timestamps
is the database's choice.  This function realizes one admissible order so
the pipelines stay executable; the guarantees of the clause itself are
captured by sortedByUpdatedDesc and isSearchOrdering below. -/
def orderByUpdatedDesc : List NoteRec → List NoteRec
  | [] => []
  | n :: rest => insertByUpdatedDesc n (orderByUpdatedDesc rest)

/-- Pagination metadata (domain/entities/search.py PaginationMetadata;
the API schema PaginationInfo has the same fields).  Pages and counts are
Python ints, modelled as Int. -/
structure PaginationMetadata where
  current_page : Int
  total_pages : Int
  total_notes : Int
  notes_per_page : Int
  has_next : Bool
  has_previous : Bool
deriving Repr, DecidableEq

/-- PaginationMetadata.calculate (domain/entities/search.py lines 138-167):
total_pages is ceiling division when total_notes is positive and 1
otherwise; Python floor division is Int.fdiv. -/
def PaginationMetadata.calculate (current_page total_notes notes_per_page : Int) :
    PaginationMetadata :=
  let total_pages : Int :=
    if total_notes > 0 then (total_notes + notes_per_page - 1).fdiv notes_per_page else 1
  { current_page := current_page
    total_pages := total_pages
    total_notes := total_notes
    notes_per_page := notes_per_page
    has_next := decide (current_page < total_pages)
    has_previous := decide (current_page > 1) }

/-- The pagination formula of the search endpoint (router_search.py line
202): total_pages = (total_notes + limit - 1) // limit, with Python floor
division; no special case for a zero count. -/
def searchTotalPages (total_notes limit : Int) : Int :=
  (total_notes + limit - 1).fdiv limit

/-- Errors surfaced by the search endpoint before a result is produced. -/
inductive SearchError where
  | criteriaRequired
  | invalidSection
  | storageError
deriving Repr, DecidableEq

/-- One page of results with its pagination block. -/
structure SearchPage where
  notes : List NoteRec
  pagination : PaginationMetadata
deriving Repr, DecidableEq

/-- The filtered candidate set of the /search endpoint before ordering and
pagination (router_search.py lines 119-191): section base query, then the
tag filter when tag ids were supplied, then the text condition when the
trimmed query is nonempty. -/
def searchFilteredSet (db : DB) (userId : UserId) (ft : NoteRec → Bool)
    (q : String) (tagIds : List TagId) (sec : SearchSection) : List NoteRec :=
  let base := buildSectionQuery db userId sec
  let withTags := if tagIds.isEmpty then base else applyTagFilter base tagIds
  if trimStr q == "" then withTags
  else withTags.filter (textSearchCond ft (trimStr q))

/-- The /search endpoint (router_search.py search_notes), after tag-id
parsing: reject when neither a query nor tag ids are present; reject an
unknown section; otherwise filter, count, order, slice, and report
pagination with total_pages = (total + limit - 1) // limit.  page and
limit are taken as given, with no validation; PostgreSQL rejects the
resulting negative OFFSET/LIMIT values, modelled as storageError. -/
def routerSearchNotes (db : DB) (userId : UserId) (ft : NoteRec → Bool)
    (q : String) (tagIds : List TagId) (sectionStr : String) (page limit : Int) :
    Except SearchError SearchPage :=
  if trimStr q == "" && tagIds.isEmpty then .error .criteriaRequired
  else
    let offset : Int := (page - 1) * limit
    match sectionOfString sectionStr with
    | none => .error .invalidSection
    | some sec =>
        let filtered := searchFilteredSet db userId ft q tagIds sec
        let total_notes : Int := filtered.length
        if offset < 0 || limit < 0 then .error .storageError
        else
          let pageNotes := ((orderByUpdatedDesc filtered).drop offset.toNat).take limit.toNat
          let total_pages : Int := searchTotalPages total_notes limit
          .ok { notes := pageNotes
                pagination :=
                  { current_page := page
                    total_pages := total_pages
                    total_notes := total_notes
                    notes_per_page := limit
                    has_next := decide (page < total_pages)
                    has_previous := decide (page > 1) } }

/-- A list is in the order ORDER BY updated_at DESC promises: pairwise
nonincreasing updated_at. -/
def sortedByUpdatedDesc (l : List NoteRec) : Prop :=
  l.Pairwise (fun a b => b.updated_at ≤ a.updated_at)

/-- The orders the database may return for a search result set: any
permutation of the filtered candidate set that is nonincreasing in
updated_at.  The ORDER BY clause constrains nothing else. -/
def isSearchOrdering (db : DB) (userId : UserId) (ft : NoteRec → Bool)
    (q : String) (tagIds : List TagId) (sec : SearchSection)
    (l : List NoteRec) : Prop :=
  l.Perm (searchFilteredSet db userId ft q tagIds sec) ∧ sortedByUpdatedDesc l

/-- Single-note fetch with access check
(sqlalchemy_note_repository.get_note_by_id): the note row with the given
id, not soft-deleted, and either owned by the user or shared with them. -/
def repoGetNoteById (db : DB) (noteId : NoteId) (userId : UserId) : Option NoteRec :=
  db.notes.find? (fun n =>
    n.id == noteId && !n.is_deleted &&
    (n.owner_id == userId || (sharedWithUserNoteIds db userId).contains n.id))

/-- Mark the first row matching (id, owner, not deleted) as soft-deleted,
modelling the single-row mutation of
sqlalchemy_note_repository.delete_note. -/
def setDeletedFirst (nid : NoteId) (uid : UserId) (now : Time) :
    List NoteRec → List NoteRec
  | [] => []
  | n :: rest =>
      if n.id == nid && n.owner_id == uid && !n.is_deleted
      then { n with is_deleted := true, updated_at := now } :: rest
      else n :: setDeletedFirst nid uid now rest

/-- sqlalchemy_note_repository.delete_note: soft delete.  Returns False
and leaves the store untouched when no live row owned by the user exists;
otherwise sets is_deleted on that row and returns True.  The row is never
removed. -/
def repoDeleteNote (db : DB) (noteId : NoteId) (userId : UserId) (now : Time) :
    Bool × DB :=
  if (db.notes.find? (fun n =>
      n.id == noteId && n.owner_id == userId && !n.is_deleted)).isSome
  then (true, { db with notes := setDeletedFirst noteId userId now db.notes })
  else (false, db)

/-- Update the first row matching (id, owner, not deleted): new title,
content and updated_at, and the tag set replaced by the requested tags
that exist in the catalog (sqlalchemy_note_repository.update_note). -/
def updateFirstNote (catalog : List TagRec) (note : NoteRec) (now : Time) :
    List NoteRec → List NoteRec
  | [] => []
  | m :: rest =>
      if m.id == note.id && m.owner_id == note.owner_id && !m.is_deleted
      then { m with title := note.title, content := note.content, updated_at := now,
                    tags := note.tags.filter (fun t => catalog.any (fun tg => tg.id == t)) }
           :: rest
      else m :: updateFirstNote catalog note now rest

/-- sqlalchemy_note_repository.update_note: fails when no live row owned
by the entity's owner exists, else rewrites that row. -/
def repoUpdateNote (db : DB) (note : NoteRec) (now : Time) : Except Unit DB :=
  if (db.notes.find? (fun m =>
      m.id == note.id && m.owner_id == note.owner_id && !m.is_deleted)).isSome
  then .ok { db with notes := updateFirstNote db.tags note now db.notes }
  else .error ()

/-- The error taxonomy of domain/services/note_service.py: NotFound and
AccessDenied are distinct conditions; noteError wraps repository
failures; invalidValue is the ValueError of the entity validation. -/
inductive NoteServiceError where
  | notFound
  | accessDenied
  | noteError
  | invalidValue
deriving Repr, DecidableEq

/-- NoteService.update_note (note_service.py lines 139-203): fetch with
the shared-read access check; NotFound when invisible; AccessDenied when
visible but not owned; then entity-level content update (strip plus
nonemptiness check) and repository update.  On any error the store is
left untouched: only the ok branch carries a successor state. -/
def serviceUpdateNote (db : DB) (noteId : NoteId) (userId : UserId)
    (title content : Option String) (tagIds : Option (List TagId)) (now : Time) :
    Except NoteServiceError DB :=
  match repoGetNoteById db noteId userId with
  | none => .error .notFound
  | some existing =>
      if !(existing.owner_id == userId) then .error .accessDenied
      else
        let changingText := title.isSome || content.isSome
        let newTitle := title.getD existing.title
        let newContent := content.getD existing.content
        if changingText && (trimStr newTitle == "" || trimStr newContent == "") then
          .error .invalidValue
        else
          let upd := { existing with
            title := if changingText then trimStr newTitle else existing.title
            content := if changingText then trimStr newContent else existing.content
            tags := tagIds.getD existing.tags }
          match repoUpdateNote db upd now with
          | .ok db2 => .ok db2
          | .error _ => .error .noteError

/-- NoteService.delete_note (note_service.py lines 205-252): fetch with
the shared-read access check; NotFound when invisible; AccessDenied when
visible but not owned; otherwise delegate the soft delete. -/
def serviceDeleteNote (db : DB) (noteId : NoteId) (userId : UserId) (now : Time) :
    Except NoteServiceError (Bool × DB) :=
  match repoGetNoteById db noteId userId with
  | none => .error .notFound
  | some existing =>
      if !(existing.owner_id == userId) then .error .accessDenied
      else .ok (repoDeleteNote db noteId userId now)

/-- NoteService._validate_pagination (note_service.py lines 570-583). -/
def validatePagination (page limit : Int) : Except String Unit :=
  if page < 1 then .error "Page number must be at least 1"
  else if limit < 1 || limit > 100 then .error "Limit must be between 1 and 100"
  else .ok ()

/-- sqlalchemy_note_repository.get_my_notes: the my-notes base filter,
the optional tag filter, the count, and the ordered page slice. -/
def repoGetMyNotes (db : DB) (userId : UserId) (page limit : Int)
    (tagIds : List TagId) : Except SearchError (List NoteRec × Nat) :=
  let offset : Int := (page - 1) * limit
  let base := buildSectionQuery db userId .myNotes
  let filtered := if tagIds.isEmpty then base else applyTagFilter base tagIds
  if offset < 0 || limit < 0 then .error .storageError
  else .ok (((orderByUpdatedDesc filtered).drop offset.toNat).take limit.toNat,
            filtered.length)

/-- NoteService.get_my_notes_paginated (note_service.py lines 298-340):
validate pagination first, then delegate and wrap the counts through
PaginationMetadata.calculate. -/
def serviceGetMyNotesPaginated (db : DB) (userId : UserId) (page limit : Int)
    (tagIds : List TagId) : Except String (List NoteRec × PaginationMetadata) :=
  match validatePagination page limit with
  | .error msg => .error msg
  | .ok _ =>
      match repoGetMyNotes db userId page limit tagIds with
      | .error _ => .error "Failed to retrieve private notes"
      | .ok (notes, total) =>
          .ok (notes, PaginationMetadata.calculate page (Int.ofNat total) limit)

/-- The tag resolution of the create-note and update-note endpoints
(router_notes.py lines 650-667 and 834-851): keep the catalog tags whose
id was requested and reject the request when any requested id is absent
from the catalog. -/
def resolveRequestTags (catalog : List TagRec) (requested : List TagId) :
    Except String (List TagRec) :=
  let tag_entities := catalog.filter (fun t => requested.contains t.id)
  let found := tag_entities.map (fun t => t.id)
  if requested.any (fun r => !(found.contains r)) then .error "Tags not found"
  else .ok tag_entities

/-- sqlalchemy_note_repository.create_note lines 51-71: append the row,
linking only those requested tags that exist in the catalog and silently
dropping the rest. -/
def repoCreateNote (db : DB) (note : NoteRec) : DB × NoteRec :=
  let linked := note.tags.filter (fun t => db.tags.any (fun tg => tg.id == t))
  let newNote := { note with tags := linked }
  ({ db with notes := db.notes ++ [newNote] }, newNote)

/-- The create-note endpoint restricted to its tag handling
(router_notes.py create_note; the share-target handling is independent of
tags and elided): resolve the requested tag ids against the catalog,
rejecting unknown ids, then build the entity (Note.create_new strips and
validates title and content) and persist it. -/
def routerCreateNote (db : DB) (userId : UserId) (noteId : NoteId)
    (title content : String) (requestedTags : List TagId) (now : Time) :
    Except String (DB × NoteRec) :=
  match resolveRequestTags db.tags requestedTags with
  | .error msg => .error msg
  | .ok tagEntities =>
      if trimStr title == "" then .error "Note title cannot be empty"
      else if trimStr content == "" then .error "Note content cannot be empty"
      else
        let note : NoteRec :=
          { id := noteId, title := trimStr title, content := trimStr content
            owner_id := userId, tags := tagEntities.map (fun t => t.id)
            created_at := now, updated_at := now, is_deleted := false }
        .ok (repoCreateNote db note)

/-- The shares a single share_note call stages before its commit
(sqlalchemy_note_repository.share_note lines 529-547): one new row per
listed grantee for whom no share of this note exists among the committed
rows.  Sessions run with autoflush disabled (utils/dependencies.py line
34), so the existence check sees only the rows committed before the call,
never the rows staged earlier in the same loop. -/
def pendingShares (committed : List ShareRec) (noteId : NoteId) (sharedBy : UserId) :
    List UserId → List ShareRec
  | [] => []
  | g :: gs =>
      if committed.any (fun s => s.note_id == noteId && s.shared_with_user_id == g)
      then pendingShares committed noteId sharedBy gs
      else { note_id := noteId, shared_by_user_id := sharedBy, shared_with_user_id := g }
           :: pendingShares committed noteId sharedBy gs

/-- sqlalchemy_note_repository.share_note: False when the note does not
exist live under this owner; otherwise stage the missing shares and
commit them, reporting success. -/
def repoShareNote (db : DB) (noteId : NoteId) (sharedBy : UserId)
    (sharedWith : List UserId) : Bool × DB :=
  if (db.notes.find? (fun n =>
      n.id == noteId && n.owner_id == sharedBy && !n.is_deleted)).isSome
  then (true, { db with shares := db.shares ++ pendingShares db.shares noteId sharedBy sharedWith })
  else (false, db)

/-- Number of share rows for a (note, grantee) pair. -/
def countShares (db : DB) (noteId : NoteId) (grantee : UserId) : Nat :=
  db.shares.countP (fun s => s.note_id == noteId && s.shared_with_user_id == grantee)

/-- The at-most-one-share-per-pair invariant of the specification. -/
def atMostOneSharePerPair (db : DB) : Prop :=
  ∀ noteId grantee, countShares db noteId grantee ≤ 1

/-- An instance of the external PostgreSQL full-text predicate under which
no note matches.  The theorems below run the pipelines with an empty
query, so the text branch is never taken and the instance is inert. -/
def noFulltextMatch : NoteRec → Bool := fun _ => false

/-! Helper lemmas shared by several claims. -/

theorem contains_iff {l : List Nat} {a : Nat} : l.contains a = true ↔ a ∈ l := by
  simp [List.contains, List.elem_iff]

theorem mem_sharedByUserNoteIds {db : DB} {u : UserId} {nid : NoteId} :
    nid ∈ sharedByUserNoteIds db u ↔
      ∃ s ∈ db.shares, s.note_id = nid ∧ s.shared_by_user_id = u := by
  simp [sharedByUserNoteIds, List.mem_map, List.mem_filter]
  tauto

theorem mem_sharedWithUserNoteIds {db : DB} {u : UserId} {nid : NoteId} :
    nid ∈ sharedWithUserNoteIds db u ↔
      ∃ s ∈ db.shares, s.note_id = nid ∧ s.shared_with_user_id = u := by
  simp [sharedWithUserNoteIds, List.mem_map, List.mem_filter]
  tauto

theorem mem_buildSectionQuery_myNotes {db : DB} {u : UserId} {n : NoteRec} :
    n ∈ buildSectionQuery db u .myNotes ↔
      n ∈ db.notes ∧ n.owner_id = u ∧ n.is_deleted = false ∧
        n.id ∉ sharedByUserNoteIds db u := by
  simp [buildSectionQuery, List.mem_filter, contains_iff]
  tauto

theorem mem_buildSectionQuery_sharedByMe {db : DB} {u : UserId} {n : NoteRec} :
    n ∈ buildSectionQuery db u .sharedByMe ↔
      n ∈ db.notes ∧ n.owner_id = u ∧ n.is_deleted = false ∧
        n.id ∈ sharedByUserNoteIds db u := by
  simp [buildSectionQuery, List.mem_filter, contains_iff]
  tauto

theorem mem_buildSectionQuery_sharedWithMe {db : DB} {u : UserId} {n : NoteRec} :
    n ∈ buildSectionQuery db u .sharedWithMe ↔
      n ∈ db.notes ∧ n.is_deleted = false ∧ n.id ∈ sharedWithUserNoteIds db u := by
  simp [buildSectionQuery, List.mem_filter, contains_iff]

theorem distinctMatchingTagCount_eq_card (n : NoteRec) (T : List TagId) :
    distinctMatchingTagCount n T = (n.tags.toFinset ∩ T.toFinset).card := by
  have hset : (n.tags.filter (fun t => T.contains t)).toFinset =
      n.tags.toFinset ∩ T.toFinset := by
    ext t
    simp [List.mem_toFinset, List.mem_filter, contains_iff]
  unfold distinctMatchingTagCount
  rw [← List.card_toFinset, hset]

theorem distinctMatchingTagCount_pass_iff {n : NoteRec} {T : List TagId}
    (hnodup : T.Nodup) :
    distinctMatchingTagCount n T = T.length ↔ ∀ t ∈ T, t ∈ n.tags := by
  rw [distinctMatchingTagCount_eq_card]
  have hTcard : T.toFinset.card = T.length := by
    rw [List.card_toFinset, hnodup.dedup]
  constructor
  · intro h t ht
    have hsub : n.tags.toFinset ∩ T.toFinset ⊆ T.toFinset := Finset.inter_subset_right
    have hcardle : T.toFinset.card ≤ (n.tags.toFinset ∩ T.toFinset).card := by
      rw [h, hTcard]
    have heq : n.tags.toFinset ∩ T.toFinset = T.toFinset :=
      Finset.eq_of_subset_of_card_le hsub hcardle
    have htA : t ∈ n.tags.toFinset ∩ T.toFinset := by
      rw [heq]
      exact List.mem_toFinset.mpr ht
    exact List.mem_toFinset.mp (Finset.mem_of_mem_inter_left htA)
  · intro h
    have hsub : T.toFinset ⊆ n.tags.toFinset := by
      intro t ht
      exact List.mem_toFinset.mpr (h t (List.mem_toFinset.mp ht))
    rw [Finset.inter_eq_right.mpr hsub, hTcard]

theorem distinctMatchingTagCount_le_dedup (n : NoteRec) (T : List TagId) :
    distinctMatchingTagCount n T ≤ T.dedup.length := by
  rw [distinctMatchingTagCount_eq_card, ← List.card_toFinset]
  exact Finset.card_le_card Finset.inter_subset_right

theorem dedup_length_lt_of_not_nodup {T : List TagId} (hdup : ¬ T.Nodup) :
    T.dedup.length < T.length := by
  have hsub : T.dedup.Sublist T := List.dedup_sublist T
  rcases lt_or_eq_of_le hsub.length_le with h | h
  · exact h
  · exact absurd (hsub.eq_of_length h ▸ List.nodup_dedup T) hdup

/-! Claim theorems. -/

/-- C1: for every user U and every non-soft-deleted note N owned by U, N
lies in the private section iff no share with granter U exists for it, in
shared-by-me iff such a share exists, never in both; and independently N
is visible to a user V under shared-with-me iff a share with grantee V
exists for it. -/
theorem claim1_visibility_partition (db : DB) (u v : UserId) (n : NoteRec)
    (hmem : n ∈ db.notes) (hdel : n.is_deleted = false) (hown : n.owner_id = u) :
    (n ∈ buildSectionQuery db u .myNotes ↔
       ¬ ∃ s ∈ db.shares, s.note_id = n.id ∧ s.shared_by_user_id = u) ∧
    (n ∈ buildSectionQuery db u .sharedByMe ↔
       ∃ s ∈ db.shares, s.note_id = n.id ∧ s.shared_by_user_id = u) ∧
    (¬ (n ∈ buildSectionQuery db u .myNotes ∧ n ∈ buildSectionQuery db u .sharedByMe)) ∧
    (n ∈ buildSectionQuery db v .sharedWithMe ↔
       ∃ s ∈ db.shares, s.note_id = n.id ∧ s.shared_with_user_id = v) := by
  refine ⟨?_, ?_, ?_, ?_⟩
  · rw [mem_buildSectionQuery_myNotes, ← mem_sharedByUserNoteIds]
    tauto
  · rw [mem_buildSectionQuery_sharedByMe, ← mem_sharedByUserNoteIds]
    tauto
  · rw [mem_buildSectionQuery_myNotes, mem_buildSectionQuery_sharedByMe]
    tauto
  · rw [mem_buildSectionQuery_sharedWithMe, ← mem_sharedWithUserNoteIds]
    tauto

/-- Witness for C1 at a concrete database: a live note owned by user 10
and shared by user 10 with user 2. -/
theorem claim1_visibility_partition_witness :
    (let wn : NoteRec := ⟨1, "t", "c", 10, [], 0, 0, false⟩
     let wdb : DB := ⟨[wn], [⟨1, 10, 2⟩], []⟩
     wn ∈ wdb.notes ∧ wn.is_deleted = false ∧ wn.owner_id = 10) ∧
    (let wn : NoteRec := ⟨1, "t", "c", 10, [], 0, 0, false⟩
     let wdb : DB := ⟨[wn], [⟨1, 10, 2⟩], []⟩
     (wn ∈ buildSectionQuery wdb 10 .myNotes ↔
        ¬ ∃ s ∈ wdb.shares, s.note_id = wn.id ∧ s.shared_by_user_id = 10) ∧
     (wn ∈ buildSectionQuery wdb 10 .sharedByMe ↔
        ∃ s ∈ wdb.shares, s.note_id = wn.id ∧ s.shared_by_user_id = 10) ∧
     (¬ (wn ∈ buildSectionQuery wdb 10 .myNotes ∧
         wn ∈ buildSectionQuery wdb 10 .sharedByMe)) ∧
     (wn ∈ buildSectionQuery wdb 2 .sharedWithMe ↔
        ∃ s ∈ wdb.shares, s.note_id = wn.id ∧ s.shared_with_user_id = 2)) :=
  ⟨⟨by decide, by decide, by decide⟩,
   claim1_visibility_partition ⟨[⟨1, "t", "c", 10, [], 0, 0, false⟩], [⟨1, 10, 2⟩], []⟩
     10 2 ⟨1, "t", "c", 10, [], 0, 0, false⟩ (by decide) (by decide) (by decide)⟩

/-- C2: with a non-empty duplicate-free requested tag list T, the tag
filter (shared by the list and search paths) passes a note iff the note
carries every tag in T: supersets pass, proper subsets fail, and a T
containing a tag attached to no note in the candidate list filters
everything out. -/
theorem claim2_tag_filter_and_semantics (T : List TagId) (notes : List NoteRec)
    (n : NoteRec) (t : TagId) (hne : T ≠ []) (hnodup : T.Nodup) :
    (n ∈ applyTagFilter notes T ↔ n ∈ notes ∧ ∀ t2 ∈ T, t2 ∈ n.tags) ∧
    (t ∈ T → (∀ m ∈ notes, t ∉ m.tags) → applyTagFilter notes T = []) := by
  have hpass : ∀ m : NoteRec,
      (distinctMatchingTagCount m T == T.length) = true ↔ ∀ t2 ∈ T, t2 ∈ m.tags := by
    intro m
    rw [beq_iff_eq]
    exact distinctMatchingTagCount_pass_iff hnodup
  constructor
  · rw [applyTagFilter, List.mem_filter, hpass n]
  · intro ht hmiss
    apply List.eq_nil_iff_forall_not_mem.mpr
    intro m hm
    rw [applyTagFilter, List.mem_filter] at hm
    exact hmiss m hm.1 ((hpass m).mp hm.2 t ht)

/-- Witness for C2: requested tags [1, 2]; a note carrying tags 1, 2, 3
passes the filter. -/
theorem claim2_tag_filter_and_semantics_witness :
    (([1, 2] : List TagId) ≠ [] ∧ ([1, 2] : List TagId).Nodup) ∧
    (let wn : NoteRec := ⟨1, "t", "c", 10, [1, 2, 3], 0, 0, false⟩
     (wn ∈ applyTagFilter [wn] [1, 2] ↔ wn ∈ [wn] ∧ ∀ t2 ∈ ([1, 2] : List TagId), t2 ∈ wn.tags) ∧
     (9 ∈ ([1, 2] : List TagId) → (∀ m ∈ [wn], 9 ∉ m.tags) → applyTagFilter [wn] [1, 2] = [])) :=
  ⟨⟨by decide, by decide⟩,
   claim2_tag_filter_and_semantics [1, 2] [⟨1, "t", "c", 10, [1, 2, 3], 0, 0, false⟩]
     ⟨1, "t", "c", 10, [1, 2, 3], 0, 0, false⟩ 9 (by decide) (by decide)⟩

/-- C10: a requested tag list containing a duplicate is unsatisfiable:
the distinct-count of matches can never reach the raw list length, so the
filter empties every candidate list, whatever tags the notes carry. -/
theorem claim10_duplicate_tag_ids_unsatisfiable (T : List TagId)
    (notes : List NoteRec) (hdup : ¬ T.Nodup) :
    applyTagFilter notes T = [] := by
  apply List.eq_nil_iff_forall_not_mem.mpr
  intro m hm
  rw [applyTagFilter, List.mem_filter, beq_iff_eq] at hm
  have h1 := distinctMatchingTagCount_le_dedup m T
  have h2 := dedup_length_lt_of_not_nodup hdup
  omega

/-- Witness for C10: requesting [1, 1] returns nothing even for a note
that carries tag 1. -/
theorem claim10_duplicate_tag_ids_unsatisfiable_witness :
    (¬ ([1, 1] : List TagId).Nodup) ∧
    applyTagFilter [⟨1, "t", "c", 10, [1, 2], 0, 0, false⟩] [1, 1] = [] :=
  ⟨by decide,
   claim10_duplicate_tag_ids_unsatisfiable [1, 1]
     [⟨1, "t", "c", 10, [1, 2], 0, 0, false⟩] (by decide)⟩

/-- C4 counterexample: a tag-only search over an empty store, page 1 with
the default limit 15, succeeds with total_notes = 0 and total_pages = 0,
not total_pages = 1 as the claim states for the search path. -/
theorem claim4_counterexample :
    routerSearchNotes ⟨[], [], []⟩ 1 noFulltextMatch "" [5] "my-notes" 1 15 =
      .ok ⟨[], ⟨1, 0, 0, 15, false, false⟩⟩ := rfl

/-- C4 amended: the search endpoint reports
total_pages = (total + limit - 1) // limit, which is 0 for an empty
result; the at-least-1 convention for a zero count is implemented in
PaginationMetadata.calculate, used by the note-listing endpoints, and for
positive counts the two formulas agree. -/
theorem claim4_amended_pagination_conventions (L t : Int) (hL : 1 ≤ L) (ht : 0 < t) :
    searchTotalPages 0 L = 0 ∧
    (PaginationMetadata.calculate 1 0 L).total_pages = 1 ∧
    searchTotalPages t L = (PaginationMetadata.calculate 1 t L).total_pages := by
  refine ⟨?_, ?_, ?_⟩
  · unfold searchTotalPages
    rw [Int.fdiv_eq_ediv _ (by omega)]
    rw [Int.zero_add]
    exact Int.ediv_eq_zero_of_lt (by omega) (by omega)
  · simp [PaginationMetadata.calculate]
  · simp [PaginationMetadata.calculate, searchTotalPages, ht]

/-- Witness for C4 amended at limit 15, count 7. -/
theorem claim4_amended_pagination_conventions_witness :
    ((1 : Int) ≤ 15 ∧ (0 : Int) < 7) ∧
    (searchTotalPages 0 15 = 0 ∧
     (PaginationMetadata.calculate 1 0 15).total_pages = 1 ∧
     searchTotalPages 7 15 = (PaginationMetadata.calculate 1 7 15).total_pages) :=
  ⟨⟨by decide, by decide⟩,
   claim4_amended_pagination_conventions 15 7 (by decide) (by decide)⟩

/-- C5 counterexample: a search request with limit = 200, far outside
[1, 100], is not rejected: the endpoint computes and returns a full
result page.  (The list path would reject the same limit, as the amended
theorem shows.) -/
theorem claim5_counterexample :
    routerSearchNotes ⟨[⟨1, "t", "c", 1, [5], 0, 10, false⟩], [], [⟨5, "x"⟩]⟩ 1
      noFulltextMatch "" [5] "my-notes" 1 200 =
      .ok ⟨[⟨1, "t", "c", 1, [5], 0, 10, false⟩], ⟨1, 1, 1, 200, false, false⟩⟩ := rfl

/-- C5 amended: the list path validates pagination through
NoteService._validate_pagination, rejecting page < 1 and limit outside
[1, 100] before computing anything; the search endpoint performs no such
validation and serves any page at least 1 with any limit above 100. -/
theorem claim5_amended_validation_only_on_list_path
    (db : DB) (u : UserId) (page limit : Int) (tagIds : List TagId)
    (ft : NoteRec → Bool) (page2 limit2 : Int) (tags2 : List TagId)
    (hbad : page < 1 ∨ limit < 1 ∨ 100 < limit)
    (hcrit : tags2 ≠ []) (hpage : 1 ≤ page2) (hlimit : 100 < limit2) :
    serviceGetMyNotesPaginated db u page limit tagIds =
      .error (if page < 1 then "Page number must be at least 1"
              else "Limit must be between 1 and 100") ∧
    (routerSearchNotes db u ft "" tags2 "my-notes" page2 limit2).isOk = true := by
  constructor
  · by_cases hp : page < 1
    · simp [serviceGetMyNotesPaginated, validatePagination, hp]
    · have hl : limit < 1 ∨ 100 < limit := by omega
      have hl2 : (limit < 1 || limit > 100) = true := by
        rcases hl with h | h <;> simp [h]
      simp [serviceGetMyNotesPaginated, validatePagination, hp, hl2]
  · have hne : tags2.isEmpty = false := by
      cases tags2 with
      | nil => exact absurd rfl hcrit
      | cons a l => rfl
    have hoff : ¬ ((page2 - 1) * limit2 < 0) := by
      have : 0 ≤ (page2 - 1) * limit2 :=
        mul_nonneg (by omega) (by omega)
      omega
    have hlim2 : ¬ (limit2 < 0) := by omega
    simp [routerSearchNotes, sectionOfString, hne, trimStr, isSpaceChar, hoff,
      hlim2, Except.isOk, Except.toBool]

/-- Witness for C5 amended: page 1 / limit 200 on a one-note store. -/
theorem claim5_amended_validation_only_on_list_path_witness :
    (((0 : Int) < 1 ∨ (200 : Int) < 1 ∨ (100 : Int) < 200) ∧
     ([5] : List TagId) ≠ [] ∧ (1 : Int) ≤ 1 ∧ (100 : Int) < 200) ∧
    (serviceGetMyNotesPaginated ⟨[⟨1, "t", "c", 1, [5], 0, 10, false⟩], [], [⟨5, "x"⟩]⟩ 1 0 200 [] =
       .error (if (0 : Int) < 1 then "Page number must be at least 1"
               else "Limit must be between 1 and 100") ∧
     (routerSearchNotes ⟨[⟨1, "t", "c", 1, [5], 0, 10, false⟩], [], [⟨5, "x"⟩]⟩ 1
        noFulltextMatch "" [5] "my-notes" 1 200).isOk = true) :=
  ⟨⟨by decide, by decide, by decide, by decide⟩,
   claim5_amended_validation_only_on_list_path
     ⟨[⟨1, "t", "c", 1, [5], 0, 10, false⟩], [], [⟨5, "x"⟩]⟩ 1 0 200 []
     noFulltextMatch 1 200 [5]
     (by decide) (by decide) (by decide) (by decide)⟩

/-- C7 counterexample: a create-note request listing tag id 2, absent
from a catalog holding only tag 1, is rejected with the 400 response
"Tags not found" instead of succeeding with the unknown id dropped. -/
theorem claim7_counterexample :
    routerCreateNote ⟨[], [], [⟨1, "a"⟩]⟩ 1 100 "t" "c" [1, 2] 0 =
      .error "Tags not found" := rfl

/-- C7 amended: a create-note or update-note request whose tag list holds
an id absent from the catalog is rejected by the endpoint tag resolution
with "Tags not found" (router_notes.py create_note and update_note share
this resolution); only the repository create_note, called directly,
silently links just the existing tags. -/
theorem claim7_amended_unknown_tags_rejected (catalog : List TagRec)
    (requested : List TagId) (db : DB) (note : NoteRec) (t0 : TagId)
    (hmiss : t0 ∈ requested) (habsent : ∀ tg ∈ catalog, tg.id ≠ t0) :
    resolveRequestTags catalog requested = .error "Tags not found" ∧
    (∀ t, t ∈ (repoCreateNote db note).2.tags ↔
       t ∈ note.tags ∧ ∃ tg ∈ db.tags, tg.id = t) := by
  constructor
  · have hcond : (requested.any (fun r =>
        !(((catalog.filter (fun t => requested.contains t.id)).map
            (fun t => t.id)).contains r))) = true := by
      rw [List.any_eq_true]
      refine ⟨t0, hmiss, ?_⟩
      rw [Bool.not_eq_true']
      rw [← Bool.not_eq_true]
      intro hc
      rw [contains_iff] at hc
      rw [List.mem_map] at hc
      obtain ⟨tg, htg, hid⟩ := hc
      exact habsent tg (List.mem_of_mem_filter htg) hid
    simp only [resolveRequestTags]
    rw [if_pos hcond]
  · intro t
    simp [repoCreateNote, List.mem_filter, List.any_eq_true, beq_iff_eq]

/-- C8 helper: with duplicate-free note ids, the single-note fetch for a
live note shared with the requesting user returns exactly that note. -/
theorem repoGetNoteById_of_shared {db : DB} {u : UserId} {n : NoteRec}
    (hmem : n ∈ db.notes) (hdel : n.is_deleted = false)
    (hshare : n.id ∈ sharedWithUserNoteIds db u)
    (hids : (db.notes.map (fun m => m.id)).Nodup) :
    repoGetNoteById db n.id u = some n := by
  have hpred : (fun m : NoteRec =>
      m.id == n.id && !m.is_deleted &&
      (m.owner_id == u || (sharedWithUserNoteIds db u).contains m.id)) n = true := by
    simp [hdel, contains_iff, hshare]
  have hsome : (db.notes.find? (fun m =>
      m.id == n.id && !m.is_deleted &&
      (m.owner_id == u || (sharedWithUserNoteIds db u).contains m.id))).isSome := by
    rw [List.find?_isSome]
    exact ⟨n, hmem, hpred⟩
  obtain ⟨m, hm⟩ := Option.isSome_iff_exists.mp hsome
  have hmmem : m ∈ db.notes := List.mem_of_find?_eq_some hm
  have hmpred := List.find?_some hm
  have hmid : m.id = n.id := by
    have := (Bool.and_eq_true _ _).mp ((Bool.and_eq_true _ _).mp hmpred).1
    exact beq_iff_eq.mp this.1
  have hmn : m = n := List.inj_on_of_nodup_map hids hmmem hmem hmid
  rw [repoGetNoteById, hm, hmn]

/-- C8: an update or delete attempt by a user who can see the note only
through a share (the note exists, is live, is shared with the user, and
is not owned by the user) is refused with AccessDenied, a condition
distinct from NotFound; no successor store state is produced, so the note
is left unchanged. -/
theorem claim8_mutation_by_grantee_denied (db : DB) (u : UserId) (n : NoteRec)
    (title content : Option String) (tagIds : Option (List TagId)) (now : Time)
    (hmem : n ∈ db.notes) (hdel : n.is_deleted = false) (hnotown : n.owner_id ≠ u)
    (hshare : n.id ∈ sharedWithUserNoteIds db u)
    (hids : (db.notes.map (fun m => m.id)).Nodup) :
    serviceUpdateNote db n.id u title content tagIds now = .error .accessDenied ∧
    serviceDeleteNote db n.id u now = .error .accessDenied ∧
    NoteServiceError.accessDenied ≠ NoteServiceError.notFound := by
  have hget := repoGetNoteById_of_shared hmem hdel hshare hids
  have hown : (n.owner_id == u) = false := by
    simp [hnotown]
  refine ⟨?_, ?_, by decide⟩
  · rw [serviceUpdateNote, hget]
    simp [hown]
  · rw [serviceDeleteNote, hget]
    simp [hown]

/-- Witness for C8: user 2 sees note 1 (owned by user 10) through a
share and is denied update and delete. -/
theorem claim8_mutation_by_grantee_denied_witness :
    (let wn : NoteRec := ⟨1, "t", "c", 10, [], 0, 0, false⟩
     let wdb : DB := ⟨[wn], [⟨1, 10, 2⟩], []⟩
     wn ∈ wdb.notes ∧ wn.is_deleted = false ∧ wn.owner_id ≠ 2 ∧
       wn.id ∈ sharedWithUserNoteIds wdb 2 ∧
       (wdb.notes.map (fun m => m.id)).Nodup) ∧
    (let wn : NoteRec := ⟨1, "t", "c", 10, [], 0, 0, false⟩
     let wdb : DB := ⟨[wn], [⟨1, 10, 2⟩], []⟩
     serviceUpdateNote wdb wn.id 2 (some "x") none none 9 = .error .accessDenied ∧
     serviceDeleteNote wdb wn.id 2 9 = .error .accessDenied ∧
     NoteServiceError.accessDenied ≠ NoteServiceError.notFound) :=
  ⟨⟨by decide, by decide, by decide, by decide, by decide⟩,
   claim8_mutation_by_grantee_denied ⟨[⟨1, "t", "c", 10, [], 0, 0, false⟩], [⟨1, 10, 2⟩], []⟩
     2 ⟨1, "t", "c", 10, [], 0, 0, false⟩ (some "x") none none 9
     (by decide) (by decide) (by decide) (by decide) (by decide)⟩

/-- Witness for C7 amended: requested tags [1, 2] against a catalog with
only tag 1. -/
theorem claim7_amended_unknown_tags_rejected_witness :
    ((2 : TagId) ∈ ([1, 2] : List TagId) ∧ ∀ tg ∈ [(⟨1, "a"⟩ : TagRec)], tg.id ≠ 2) ∧
    (resolveRequestTags [⟨1, "a"⟩] [1, 2] = .error "Tags not found" ∧
     (∀ t, t ∈ (repoCreateNote ⟨[], [], [⟨1, "a"⟩]⟩ ⟨9, "t", "c", 1, [1, 2], 0, 0, false⟩).2.tags ↔
        t ∈ (⟨9, "t", "c", 1, [1, 2], 0, 0, false⟩ : NoteRec).tags ∧
          ∃ tg ∈ (⟨[], [], [⟨1, "a"⟩]⟩ : DB).tags, tg.id = t)) :=
  ⟨⟨by decide, by decide⟩,
   claim7_amended_unknown_tags_rejected [⟨1, "a"⟩] [1, 2] ⟨[], [], [⟨1, "a"⟩]⟩
     ⟨9, "t", "c", 1, [1, 2], 0, 0, false⟩ 2 (by decide) (by decide)⟩

/-- C9 helper: staged shares target only the call's note: for another
note id they contribute no row. -/
theorem countP_pendingShares_note_ne (c : List ShareRec) (nid : NoteId) (sb : UserId)
    (gs : List UserId) (nid2 : NoteId) (g2 : UserId) (hne : nid2 ≠ nid) :
    (pendingShares c nid sb gs).countP
      (fun s => s.note_id == nid2 && s.shared_with_user_id == g2) = 0 := by
  induction gs with
  | nil => rfl
  | cons g gs ih =>
      rw [pendingShares]
      by_cases h : (c.any (fun s => s.note_id == nid && s.shared_with_user_id == g)) = true
      · rw [if_pos h]
        exact ih
      · rw [if_neg h, List.countP_cons_of_neg]
        · exact ih
        · simp [Ne.symm hne]

/-- C9 helper: when a committed share already exists for (note, grantee),
the staging loop adds no row for that pair. -/
theorem countP_pendingShares_zero_of_committed (c : List ShareRec) (nid : NoteId)
    (sb : UserId) (gs : List UserId) (g2 : UserId)
    (hc : ∃ s ∈ c, s.note_id = nid ∧ s.shared_with_user_id = g2) :
    (pendingShares c nid sb gs).countP
      (fun s => s.note_id == nid && s.shared_with_user_id == g2) = 0 := by
  induction gs with
  | nil => rfl
  | cons g gs ih =>
      rw [pendingShares]
      by_cases h : (c.any (fun s => s.note_id == nid && s.shared_with_user_id == g)) = true
      · rw [if_pos h]
        exact ih
      · rw [if_neg h, List.countP_cons_of_neg]
        · exact ih
        · intro hpred
          simp only [beq_iff_eq, Bool.and_eq_true, beq_self_eq_true, true_and] at hpred
          apply h
          rw [List.any_eq_true]
          obtain ⟨s, hs, h1, h2⟩ := hc
          exact ⟨s, hs, by simp [h1, h2, hpred]⟩

/-- C9 helper: a grantee not listed in the call gets no staged row. -/
theorem countP_pendingShares_zero_of_not_mem (c : List ShareRec) (nid : NoteId)
    (sb : UserId) (gs : List UserId) (g2 : UserId) (hg : g2 ∉ gs) :
    (pendingShares c nid sb gs).countP
      (fun s => s.note_id == nid && s.shared_with_user_id == g2) = 0 := by
  induction gs with
  | nil => rfl
  | cons g gs ih =>
      have hg1 : g ≠ g2 := fun h => hg (h ▸ List.mem_cons_self g gs)
      have hg2 : g2 ∉ gs := fun h => hg (List.mem_cons_of_mem g h)
      rw [pendingShares]
      by_cases h : (c.any (fun s => s.note_id == nid && s.shared_with_user_id == g)) = true
      · rw [if_pos h]
        exact ih hg2
      · rw [if_neg h, List.countP_cons_of_neg]
        · exact ih hg2
        · simp [hg1]

/-- C9 helper: a duplicate-free grantee list stages at most one row per
(note, grantee) pair. -/
theorem countP_pendingShares_le_one (c : List ShareRec) (nid : NoteId)
    (sb : UserId) (gs : List UserId) (g2 : UserId) (hnd : gs.Nodup) :
    (pendingShares c nid sb gs).countP
      (fun s => s.note_id == nid && s.shared_with_user_id == g2) ≤ 1 := by
  induction gs with
  | nil => simp [pendingShares]
  | cons g gs ih =>
      obtain ⟨hgnot, hnd2⟩ := List.pairwise_cons.mp hnd
      rw [pendingShares]
      by_cases h : (c.any (fun s => s.note_id == nid && s.shared_with_user_id == g)) = true
      · rw [if_pos h]
        exact ih hnd2
      · rw [if_neg h]
        by_cases hgg : g = g2
        · rw [List.countP_cons_of_pos]
          · have hz := countP_pendingShares_zero_of_not_mem c nid sb gs g2
              (fun hmem => (hgnot g2 hmem) hgg)
            omega
          · simp [hgg]
        · rw [List.countP_cons_of_neg]
          · exact ih hnd2
          · simp [hgg]

/-- C9 counterexample: a single share_note call listing grantee 7 twice
inserts two share rows for (note 1, user 7): the session runs with
autoflush disabled, so the duplicate check only sees rows committed
before the call, and no uniqueness constraint guards the table.  The
at-most-one-share invariant is violated in a reachable state (the
create-note endpoint forwards duplicate share targets without
deduplication). -/
theorem claim9_counterexample :
    (repoShareNote ⟨[⟨1, "t", "c", 10, [], 0, 0, false⟩], [], []⟩ 1 10 [7, 7]).1 = true ∧
    countShares (repoShareNote ⟨[⟨1, "t", "c", 10, [], 0, 0, false⟩], [], []⟩ 1 10 [7, 7]).2 1 7 = 2 ∧
    ¬ atMostOneSharePerPair (repoShareNote ⟨[⟨1, "t", "c", 10, [], 0, 0, false⟩], [], []⟩ 1 10 [7, 7]).2 := by
  refine ⟨rfl, rfl, ?_⟩
  intro h
  have := h 1 7
  simp [countShares, repoShareNote, pendingShares] at this

/-- C9 amended: sharing an already-shared (note, grantee) pair again is a
no-op that reports success and leaves the share table unchanged, and the
at-most-one-share-per-pair invariant is preserved by any share_note call
whose grantee list is duplicate-free; a single call listing the same
grantee twice can break it (see the counterexample). -/
theorem claim9_amended_share_idempotent_and_invariant (db : DB) (nid : NoteId)
    (owner g : UserId) (gs : List UserId) (n : NoteRec)
    (hmem : n ∈ db.notes) (hid : n.id = nid) (hown : n.owner_id = owner)
    (hlive : n.is_deleted = false)
    (hshared : ∃ s ∈ db.shares, s.note_id = nid ∧ s.shared_with_user_id = g)
    (hinv : atMostOneSharePerPair db) (hgs : gs.Nodup) :
    repoShareNote db nid owner [g] = (true, db) ∧
    atMostOneSharePerPair (repoShareNote db nid owner gs).2 := by
  have hfind : (db.notes.find? (fun m =>
      m.id == nid && m.owner_id == owner && !m.is_deleted)).isSome := by
    rw [List.find?_isSome]
    exact ⟨n, hmem, by simp [hid, hown, hlive]⟩
  constructor
  · have hany : (db.shares.any (fun s =>
        s.note_id == nid && s.shared_with_user_id == g)) = true := by
      rw [List.any_eq_true]
      obtain ⟨s, hs, h1, h2⟩ := hshared
      exact ⟨s, hs, by simp [h1, h2]⟩
    rw [repoShareNote, if_pos (by rw [hfind]), pendingShares, if_pos hany,
      pendingShares]
    simp
  · rw [repoShareNote, if_pos (by rw [hfind])]
    intro n2 g2
    rw [countShares]
    simp only [List.countP_append]
    by_cases hx : ∃ s ∈ db.shares, s.note_id = n2 ∧ s.shared_with_user_id = g2
    · have hpend : (pendingShares db.shares nid owner gs).countP
          (fun s => s.note_id == n2 && s.shared_with_user_id == g2) = 0 := by
        by_cases hn2 : n2 = nid
        · subst hn2
          exact countP_pendingShares_zero_of_committed db.shares n2 owner gs g2 hx
        · exact countP_pendingShares_note_ne db.shares nid owner gs n2 g2 hn2
      have := hinv n2 g2
      rw [countShares] at this
      omega
    · have hzero : db.shares.countP
          (fun s => s.note_id == n2 && s.shared_with_user_id == g2) = 0 := by
        rw [List.countP_eq_zero]
        intro s hs hpred
        simp only [Bool.and_eq_true, beq_iff_eq] at hpred
        exact hx ⟨s, hs, hpred.1, hpred.2⟩
      have hpend : (pendingShares db.shares nid owner gs).countP
          (fun s => s.note_id == n2 && s.shared_with_user_id == g2) ≤ 1 := by
        by_cases hn2 : n2 = nid
        · subst hn2
          exact countP_pendingShares_le_one db.shares n2 owner gs g2 hgs
        · rw [countP_pendingShares_note_ne db.shares nid owner gs n2 g2 hn2]
          omega
      omega

/-- Witness for C9 amended: note 1 owned by user 10 already shared with
user 7; sharing with [7] again is a no-op and sharing with the
duplicate-free list [7, 8] keeps the invariant. -/
theorem claim9_amended_share_idempotent_and_invariant_witness :
    (let wn : NoteRec := ⟨1, "t", "c", 10, [], 0, 0, false⟩
     let wdb : DB := ⟨[wn], [⟨1, 10, 7⟩], []⟩
     wn ∈ wdb.notes ∧ wn.id = 1 ∧ wn.owner_id = 10 ∧ wn.is_deleted = false ∧
       (∃ s ∈ wdb.shares, s.note_id = 1 ∧ s.shared_with_user_id = 7) ∧
       atMostOneSharePerPair wdb ∧ ([7, 8] : List UserId).Nodup) ∧
    (let wn : NoteRec := ⟨1, "t", "c", 10, [], 0, 0, false⟩
     let wdb : DB := ⟨[wn], [⟨1, 10, 7⟩], []⟩
     repoShareNote wdb 1 10 [7] = (true, wdb) ∧
     atMostOneSharePerPair (repoShareNote wdb 1 10 [7, 8]).2) :=
  ⟨⟨by decide, by decide, by decide, by decide,
    ⟨⟨1, 10, 7⟩, by decide, by decide, by decide⟩,
    fun nid g => le_trans (List.countP_le_length _) (by decide),
    by decide⟩,
   claim9_amended_share_idempotent_and_invariant
     ⟨[⟨1, "t", "c", 10, [], 0, 0, false⟩], [⟨1, 10, 7⟩], []⟩ 1 10 7 [7, 8]
     ⟨1, "t", "c", 10, [], 0, 0, false⟩ (by decide) (by decide) (by decide) (by decide)
     ⟨⟨1, 10, 7⟩, by decide, by decide, by decide⟩
     (fun nid g => le_trans (List.countP_le_length _) (by decide))
     (by decide)⟩

/-- C3 helper: the soft-delete rewrite leaves every note id in place. -/
theorem setDeletedFirst_map_id (nid : NoteId) (uid : UserId) (now : Time)
    (l : List NoteRec) :
    (setDeletedFirst nid uid now l).map (fun m => m.id) = l.map (fun m => m.id) := by
  induction l with
  | nil => rfl
  | cons n rest ih =>
      rw [setDeletedFirst]
      by_cases h : (n.id == nid && n.owner_id == uid && !n.is_deleted) = true
      · rw [if_pos h]
        rfl
      · rw [if_neg h, List.map_cons, List.map_cons, ih]

/-- C3 helper: when the lookup of delete_note succeeds and note ids are
duplicate-free, every note carrying the deleted id is marked deleted in
the rewritten store. -/
theorem setDeletedFirst_deleted_of_id (nid : NoteId) (uid : UserId) (now : Time)
    (l : List NoteRec) (hids : (l.map (fun m => m.id)).Nodup)
    (hfind : (l.find? (fun n =>
        n.id == nid && n.owner_id == uid && !n.is_deleted)).isSome) :
    ∀ m ∈ setDeletedFirst nid uid now l, m.id = nid → m.is_deleted = true := by
  induction l with
  | nil => simp [setDeletedFirst]
  | cons n rest ih =>
      have hids2 : (rest.map (fun m => m.id)).Nodup :=
        (List.pairwise_cons.mp hids).2
      have hnotin : ∀ m2 ∈ rest, n.id = m2.id → False := by
        intro m2 hm2 heq
        exact (List.pairwise_cons.mp hids).1 m2.id (List.mem_map_of_mem _ hm2) heq
      intro m hm hmid
      rw [setDeletedFirst] at hm
      by_cases h : (n.id == nid && n.owner_id == uid && !n.is_deleted) = true
      · rw [if_pos h] at hm
        rcases List.mem_cons.mp hm with hm1 | hm2
        · rw [hm1]
        · have hnid : n.id = nid := by
            have := (Bool.and_eq_true _ _).mp ((Bool.and_eq_true _ _).mp h).1
            exact beq_iff_eq.mp this.1
          exact absurd (hnid.trans hmid.symm) (fun he => hnotin m hm2 he)
      · rw [if_neg h] at hm
        have hfind2 : (rest.find? (fun n2 =>
            n2.id == nid && n2.owner_id == uid && !n2.is_deleted)).isSome := by
          rw [List.find?_isSome] at hfind
          rw [List.find?_isSome]
          obtain ⟨x, hx, hpx⟩ := hfind
          rcases List.mem_cons.mp hx with h1 | h2
          · exact absurd (h1 ▸ hpx) h
          · exact ⟨x, h2, hpx⟩
        rcases List.mem_cons.mp hm with hm1 | hm2
        · subst hm1
          by_cases hdel : m.is_deleted = true
          · exact hdel
          · exfalso
            obtain ⟨e, he, hep⟩ := List.find?_isSome.mp hfind2
            have heid : e.id = nid := by
              have := (Bool.and_eq_true _ _).mp ((Bool.and_eq_true _ _).mp hep).1
              exact beq_iff_eq.mp this.1
            exact hnotin e he (hmid.trans heid.symm)
        · exact ih hids2 hfind2 m hm2 hmid

/-- C3 helper: when the lookup of delete_note succeeds, the rewritten
store still carries a row with the deleted id, now flagged deleted. -/
theorem setDeletedFirst_exists (nid : NoteId) (uid : UserId) (now : Time)
    (l : List NoteRec)
    (hfind : (l.find? (fun n =>
        n.id == nid && n.owner_id == uid && !n.is_deleted)).isSome) :
    ∃ m ∈ setDeletedFirst nid uid now l, m.id = nid ∧ m.is_deleted = true := by
  induction l with
  | nil => simp at hfind
  | cons n rest ih =>
      rw [setDeletedFirst]
      by_cases h : (n.id == nid && n.owner_id == uid && !n.is_deleted) = true
      · rw [if_pos h]
        have hnid : n.id = nid := by
          have := (Bool.and_eq_true _ _).mp ((Bool.and_eq_true _ _).mp h).1
          exact beq_iff_eq.mp this.1
        exact ⟨{ n with is_deleted := true, updated_at := now },
          List.mem_cons_self _ _, hnid, rfl⟩
      · rw [if_neg h]
        have hfind2 : (rest.find? (fun n2 =>
            n2.id == nid && n2.owner_id == uid && !n2.is_deleted)).isSome := by
          rw [List.find?_isSome] at hfind
          rw [List.find?_isSome]
          obtain ⟨x, hx, hpx⟩ := hfind
          rcases List.mem_cons.mp hx with h1 | h2
          · exact absurd (h1 ▸ hpx) h
          · exact ⟨x, h2, hpx⟩
        obtain ⟨m, hm, hprop⟩ := ih hfind2
        exact ⟨m, List.mem_cons_of_mem _ hm, hprop⟩

/-- C3 helper: membership in the filtered search candidates entails
membership in the section base query. -/
theorem mem_of_mem_searchFilteredSet {db : DB} {u : UserId} {ft : NoteRec → Bool}
    {q : String} {tagIds : List TagId} {sec : SearchSection} {m : NoteRec}
    (hm : m ∈ searchFilteredSet db u ft q tagIds sec) :
    m ∈ buildSectionQuery db u sec := by
  rw [searchFilteredSet] at hm
  by_cases hq : (trimStr q == "") = true
  · rw [if_pos hq] at hm
    by_cases ht : tagIds.isEmpty
    · rwa [if_pos ht] at hm
    · rw [if_neg ht] at hm
      exact (List.mem_filter.mp hm).1
  · rw [if_neg hq] at hm
    have hm2 := (List.mem_filter.mp hm).1
    by_cases ht : tagIds.isEmpty
    · rwa [if_pos ht] at hm2
    · rw [if_neg ht] at hm2
      exact (List.mem_filter.mp hm2).1

/-- C3 helper: insertion keeps exactly the members. -/
theorem mem_insertByUpdatedDesc {n m : NoteRec} {l : List NoteRec} :
    m ∈ insertByUpdatedDesc n l ↔ m = n ∨ m ∈ l := by
  induction l with
  | nil => simp [insertByUpdatedDesc]
  | cons b t ih =>
      rw [insertByUpdatedDesc]
      by_cases h : b.updated_at < n.updated_at
      · rw [if_pos h]
        simp
      · rw [if_neg h]
        simp [ih]
        tauto

/-- C3 helper: ordering keeps exactly the members. -/
theorem mem_orderByUpdatedDesc {m : NoteRec} {l : List NoteRec} :
    m ∈ orderByUpdatedDesc l ↔ m ∈ l := by
  induction l with
  | nil => simp [orderByUpdatedDesc]
  | cons b t ih =>
      rw [orderByUpdatedDesc, mem_insertByUpdatedDesc]
      simp [ih]

/-- C3: once delete_note has soft-deleted a note (the flag is set, the
row kept), the note is invisible everywhere: no visibility section of any
user contains a note with its id, the search candidate set and the served
result page of any search exclude it, and the single-note fetch returns
nothing for any user, while a row with the id survives in the store,
flagged deleted. -/
theorem claim3_soft_deleted_invisible_everywhere (db : DB) (nid : NoteId)
    (uid : UserId) (now : Time)
    (hids : (db.notes.map (fun m => m.id)).Nodup)
    (hdel : (repoDeleteNote db nid uid now).1 = true) :
    (∀ u sec, ∀ m ∈ buildSectionQuery (repoDeleteNote db nid uid now).2 u sec,
       m.id ≠ nid) ∧
    (∀ u ft q tagIds sec,
       ∀ m ∈ searchFilteredSet (repoDeleteNote db nid uid now).2 u ft q tagIds sec,
         m.id ≠ nid) ∧
    (∀ u ft q tagIds sectionStr page limit r,
       routerSearchNotes (repoDeleteNote db nid uid now).2 u ft q tagIds
           sectionStr page limit = .ok r →
         ∀ m ∈ r.notes, m.id ≠ nid) ∧
    (∀ u, repoGetNoteById (repoDeleteNote db nid uid now).2 nid u = none) ∧
    (∃ m ∈ (repoDeleteNote db nid uid now).2.notes,
       m.id = nid ∧ m.is_deleted = true) := by
  have hfind : (db.notes.find? (fun n =>
      n.id == nid && n.owner_id == uid && !n.is_deleted)).isSome := by
    rw [repoDeleteNote] at hdel
    by_cases h : (db.notes.find? (fun n =>
        n.id == nid && n.owner_id == uid && !n.is_deleted)).isSome
    · exact h
    · rw [if_neg h] at hdel
      simp at hdel
  have hdb2 : (repoDeleteNote db nid uid now).2 =
      { db with notes := setDeletedFirst nid uid now db.notes } := by
    rw [repoDeleteNote, if_pos hfind]
  have hkill := setDeletedFirst_deleted_of_id nid uid now db.notes hids hfind
  have hsection : ∀ u sec,
      ∀ m ∈ buildSectionQuery (repoDeleteNote db nid uid now).2 u sec, m.id ≠ nid := by
    intro u sec m hm hmid
    have hlive : m.is_deleted = false ∧
        m ∈ ({ db with notes := setDeletedFirst nid uid now db.notes } : DB).notes := by
      rw [hdb2] at hm
      cases sec with
      | myNotes =>
          have h2 := mem_buildSectionQuery_myNotes.mp hm
          exact ⟨h2.2.2.1, h2.1⟩
      | sharedByMe =>
          have h2 := mem_buildSectionQuery_sharedByMe.mp hm
          exact ⟨h2.2.2.1, h2.1⟩
      | sharedWithMe =>
          have h2 := mem_buildSectionQuery_sharedWithMe.mp hm
          exact ⟨h2.2.1, h2.1⟩
    have := hkill m hlive.2 hmid
    rw [hlive.1] at this
    exact absurd this (by decide)
  refine ⟨hsection, ?_, ?_, ?_, ?_⟩
  · intro u ft q tagIds sec m hm
    exact hsection u sec m (mem_of_mem_searchFilteredSet hm)
  · intro u ft q tagIds sectionStr page limit r hok m hm
    rw [routerSearchNotes] at hok
    by_cases hc : (trimStr q == "" && tagIds.isEmpty) = true
    · rw [if_pos hc] at hok
      exact absurd hok (by simp)
    · rw [if_neg hc] at hok
      simp only at hok
      cases hsec : sectionOfString sectionStr with
      | none =>
          rw [hsec] at hok
          exact absurd hok (by simp)
      | some sec =>
          rw [hsec] at hok
          simp only at hok
          by_cases hoff : (decide ((page - 1) * limit < 0) || decide (limit < 0)) = true
          · rw [if_pos hoff] at hok
            exact absurd hok (by simp)
          · rw [if_neg hoff] at hok
            have hr : r.notes = ((orderByUpdatedDesc (searchFilteredSet
                (repoDeleteNote db nid uid now).2 u ft q tagIds sec)).drop
                  ((page - 1) * limit).toNat).take limit.toNat := by
              cases hok
              rfl
            rw [hr] at hm
            have hm2 := List.Sublist.mem hm (List.take_sublist _ _)
            have hm3 := List.Sublist.mem hm2 (List.drop_sublist _ _)
            have hm4 := mem_orderByUpdatedDesc.mp hm3
            exact hsection u sec m (mem_of_mem_searchFilteredSet hm4)
  · intro u
    rw [hdb2, repoGetNoteById]
    rw [List.find?_eq_none]
    intro m hm hpred
    have hmid : m.id = nid := by
      have := (Bool.and_eq_true _ _).mp ((Bool.and_eq_true _ _).mp hpred).1
      exact beq_iff_eq.mp this.1
    have hdel2 := hkill m hm hmid
    have hnotdel : (!m.is_deleted) = true := by
      have := (Bool.and_eq_true _ _).mp ((Bool.and_eq_true _ _).mp hpred).1
      exact this.2
    rw [hdel2] at hnotdel
    exact absurd hnotdel (by decide)
  · rw [hdb2]
    exact setDeletedFirst_exists nid uid now db.notes hfind

/-- Witness for C3: user 10 deletes note 1, previously shared with user
2; the note vanishes from every section, from search, and from the
single-note fetch, while its row persists. -/
theorem claim3_soft_deleted_invisible_everywhere_witness :
    (let wdb : DB := ⟨[⟨1, "t", "c", 10, [], 0, 0, false⟩], [⟨1, 10, 2⟩], []⟩
     (wdb.notes.map (fun m => m.id)).Nodup ∧ (repoDeleteNote wdb 1 10 9).1 = true) ∧
    (let wdb : DB := ⟨[⟨1, "t", "c", 10, [], 0, 0, false⟩], [⟨1, 10, 2⟩], []⟩
     (∀ u sec, ∀ m ∈ buildSectionQuery (repoDeleteNote wdb 1 10 9).2 u sec, m.id ≠ 1) ∧
     (∀ u ft q tagIds sec,
        ∀ m ∈ searchFilteredSet (repoDeleteNote wdb 1 10 9).2 u ft q tagIds sec,
          m.id ≠ 1) ∧
     (∀ u ft q tagIds sectionStr page limit r,
        routerSearchNotes (repoDeleteNote wdb 1 10 9).2 u ft q tagIds
            sectionStr page limit = .ok r →
          ∀ m ∈ r.notes, m.id ≠ 1) ∧
     (∀ u, repoGetNoteById (repoDeleteNote wdb 1 10 9).2 1 u = none) ∧
     (∃ m ∈ (repoDeleteNote wdb 1 10 9).2.notes, m.id = 1 ∧ m.is_deleted = true)) :=
  ⟨⟨by decide, by decide⟩,
   claim3_soft_deleted_invisible_everywhere
     ⟨[⟨1, "t", "c", 10, [], 0, 0, false⟩], [⟨1, 10, 2⟩], []⟩ 1 10 9
     (by decide) (by decide)⟩

/-- C6 helper: two lists that are permutations of each other, both
nonincreasing in updated_at, coincide when the timestamps are pairwise
distinct. -/
theorem eq_of_perm_of_sortedDesc (l1 : List NoteRec) :
    ∀ l2 : List NoteRec, l1.Perm l2 → sortedByUpdatedDesc l1 →
      sortedByUpdatedDesc l2 →
      l1.Pairwise (fun a b => a.updated_at ≠ b.updated_at) → l1 = l2 := by
  induction l1 with
  | nil =>
      intro l2 hp _ _ _
      exact (List.Perm.eq_nil hp.symm).symm
  | cons a t1 ih =>
      intro l2 hp hs1 hs2 hd
      cases l2 with
      | nil => exact List.Perm.eq_nil hp
      | cons b t2 =>
          rw [sortedByUpdatedDesc] at hs1 hs2
          obtain ⟨hs1a, hs1t⟩ := List.pairwise_cons.mp hs1
          obtain ⟨hs2a, hs2t⟩ := List.pairwise_cons.mp hs2
          obtain ⟨hda, hdt⟩ := List.pairwise_cons.mp hd
          have hab : a = b := by
            have hbmem : b ∈ a :: t1 := hp.mem_iff.mpr (List.mem_cons_self b t2)
            rcases List.mem_cons.mp hbmem with h1 | h1
            · exact h1.symm
            · have hamem : a ∈ b :: t2 := hp.mem_iff.mp (List.mem_cons_self a t1)
              rcases List.mem_cons.mp hamem with h2 | h2
              · exact h2
              · exact absurd (Nat.le_antisymm (hs2a a h2) (hs1a b h1)) (hda b h1)
          subst hab
          have hp2 : t1.Perm t2 := hp.cons_inv
          rw [ih t2 hp2 hs1t hs2t hdt]

/-- Two live notes of the same owner carrying tag 5, with equal
updated_at timestamps, and the store holding them: the ordering claims
below are settled on this configuration. -/
def tieNoteA : NoteRec := ⟨1, "a", "c", 1, [5], 0, 10, false⟩

/-- Second note of the equal-timestamp pair; see tieNoteA. -/
def tieNoteB : NoteRec := ⟨2, "b", "c", 1, [5], 0, 10, false⟩

/-- Store holding the equal-timestamp pair with tag 5 in the catalog. -/
def tieDB : DB := ⟨[tieNoteA, tieNoteB], [], [⟨5, "x"⟩]⟩

/-- C6 counterexample: the ORDER BY clause of the search constrains only
the updated_at order, so with two equal-timestamp notes both [A, B] and
[B, A] are admissible orders of the same query: the claimed stable
secondary tie-break does not exist and repeated identical queries may
disagree. -/
theorem claim6_counterexample :
    isSearchOrdering tieDB 1 noFulltextMatch "" [5] .myNotes [tieNoteA, tieNoteB] ∧
    isSearchOrdering tieDB 1 noFulltextMatch "" [5] .myNotes [tieNoteB, tieNoteA] ∧
    ([tieNoteA, tieNoteB] : List NoteRec) ≠ [tieNoteB, tieNoteA] := by
  have hfs : searchFilteredSet tieDB 1 noFulltextMatch "" [5] .myNotes =
      [tieNoteA, tieNoteB] := rfl
  refine ⟨⟨?_, ?_⟩, ⟨?_, ?_⟩, by decide⟩
  · rw [hfs]
  · rw [sortedByUpdatedDesc]
    simp [List.pairwise_cons, tieNoteA, tieNoteB]
  · rw [hfs]
    exact List.Perm.swap tieNoteA tieNoteB []
  · rw [sortedByUpdatedDesc]
    simp [List.pairwise_cons, tieNoteA, tieNoteB]

/-- C6 amended: the search result order is guaranteed only to be
nonincreasing in the last-updated timestamp; no secondary key is applied,
so the order is uniquely determined (and pagination deterministic)
exactly when the matching notes have pairwise distinct timestamps, and
with equal timestamps several orders are admissible (see the
counterexample). -/
theorem claim6_amended_order_unique_iff_distinct_timestamps (db : DB)
    (u : UserId) (ft : NoteRec → Bool) (q : String) (tagIds : List TagId)
    (sec : SearchSection) (l1 l2 : List NoteRec)
    (h1 : isSearchOrdering db u ft q tagIds sec l1)
    (h2 : isSearchOrdering db u ft q tagIds sec l2)
    (hdist : (searchFilteredSet db u ft q tagIds sec).Pairwise
        (fun a b => a.updated_at ≠ b.updated_at)) :
    l1 = l2 := by
  obtain ⟨hp1, hs1⟩ := h1
  obtain ⟨hp2, hs2⟩ := h2
  have hd1 : l1.Pairwise (fun a b => a.updated_at ≠ b.updated_at) :=
    (List.Perm.pairwise_iff (fun hxy => Ne.symm hxy) hp1).mpr hdist
  exact eq_of_perm_of_sortedDesc l1 l2 (hp1.trans hp2.symm) hs1 hs2 hd1

/-- Witness for C6 amended: a two-note store with distinct timestamps has
a unique admissible order. -/
theorem claim6_amended_order_unique_iff_distinct_timestamps_witness :
    (let wa : NoteRec := ⟨1, "a", "c", 1, [5], 0, 20, false⟩
     let wb : NoteRec := ⟨2, "b", "c", 1, [5], 0, 10, false⟩
     let wdb : DB := ⟨[wa, wb], [], [⟨5, "x"⟩]⟩
     isSearchOrdering wdb 1 noFulltextMatch "" [5] .myNotes [wa, wb] ∧
     isSearchOrdering wdb 1 noFulltextMatch "" [5] .myNotes [wa, wb] ∧
     (searchFilteredSet wdb 1 noFulltextMatch "" [5] .myNotes).Pairwise
       (fun a b => a.updated_at ≠ b.updated_at)) ∧
    ([(⟨1, "a", "c", 1, [5], 0, 20, false⟩ : NoteRec), ⟨2, "b", "c", 1, [5], 0, 10, false⟩] :
        List NoteRec) =
      [⟨1, "a", "c", 1, [5], 0, 20, false⟩, ⟨2, "b", "c", 1, [5], 0, 10, false⟩] := by
  have hord : isSearchOrdering ⟨[⟨1, "a", "c", 1, [5], 0, 20, false⟩,
      ⟨2, "b", "c", 1, [5], 0, 10, false⟩], [], [⟨5, "x"⟩]⟩ 1 noFulltextMatch "" [5]
      .myNotes [⟨1, "a", "c", 1, [5], 0, 20, false⟩, ⟨2, "b", "c", 1, [5], 0, 10, false⟩] := by
    constructor
    · rfl
    · rw [sortedByUpdatedDesc]
      simp [List.pairwise_cons]
  have hdist : (searchFilteredSet ⟨[⟨1, "a", "c", 1, [5], 0, 20, false⟩,
      ⟨2, "b", "c", 1, [5], 0, 10, false⟩], [], [⟨5, "x"⟩]⟩ 1 noFulltextMatch "" [5]
      .myNotes).Pairwise (fun a b => a.updated_at ≠ b.updated_at) := by
    simp [List.pairwise_cons]
    decide
  exact ⟨⟨hord, hord, hdist⟩,
    claim6_amended_order_unique_iff_distinct_timestamps _ 1 noFulltextMatch "" [5]
      .myNotes _ _ hord hord hdist⟩

end SharedNotes

